import Mathlib

/-!
# Verification of the parv agent core against its specification

This file gives a shallow embedding, in Lean 4, of the parts of the
`yagu3/parv` repository that the specification's checkable claims are
about, and proves or refutes each claim.

Embedded units (file → Lean definitions):
* `src/memory/__init__.py` (`Memory.learn`, `Memory.top_facts`,
  `Memory.context`) → `Parv.Memory.*`
* `src/core/llm.py` (`LLM._fix_roles`) → `Parv.Llm.*`
* `src/myai.py` (`Agent._parse_tool`, `Agent._parse_answer`, the
  `Agent.send` round loop) → `Parv.Agent.*`
* `src/agents.py` (`Coordinator._parse`, the scope check in
  `WorkerAgent.execute`, `TOOL_GROUPS`) → `Parv.Coord.*`, `Parv.Worker.*`
* `src/tools/__init__.py` (`execute`, `execute_any`) → `Parv.Tools.*`

Modelling conventions:
* Python machine integers are `Int`/`Nat` (Python ints are unbounded, so
  no wrap-around modelling is needed).
* Python strings are Lean `String`s; `len`/slicing count Unicode code
  points in both languages, so lengths agree.
* Fallible Python code is modelled in `Except`; an uncaught Python
  exception is an `Except.error`.
* Effectful primitives (filesystem, subprocess, Win32 calls, network)
  are parameters gathered in an environment record; the dispatch logic
  under verification is translated literally on top of them.
-/

namespace Parv

/-- `", ".join(xs)`-style joining, as Python `sep.join(list)`.
`joinSep s [] = ""`, `joinSep s [a] = a`, else interleaves `s`. -/
def joinSep (sep : String) : List String → String
  | [] => ""
  | [s] => s
  | s :: t :: rest => s ++ sep ++ joinSep sep (t :: rest)

/-- Python `str.strip()` on ASCII whitespace.  (Python strips a slightly
larger Unicode class; every string handled by the claims is ASCII.) -/
def isPySpace (c : Char) : Bool :=
  c = ' ' || c = '\t' || c = '\n' || c = '\r' || c = '\x0b' || c = '\x0c'

def pyStrip (s : String) : String :=
  String.mk (((s.data.dropWhile isPySpace).reverse.dropWhile isPySpace).reverse)

/-- Python `str.lower()`, character by character (`Char.toLower` is its
ASCII core; every string the claims exercise is ASCII). -/
def pyLower (s : String) : String :=
  String.mk (s.data.map Char.toLower)

/-- Python's `list.sort`/`sorted` is a stable sort; a stable sort with
respect to a fixed (total pre)order is unique, so the structurally
recursive insertion sort produces exactly the list Python produces. -/
abbrev pySort {α : Type} (r : α → α → Prop) [DecidableRel r] (l : List α) : List α :=
  l.insertionSort r

namespace Memory

/-! ## Priority memory store — `src/memory/__init__.py`

A stored fact is one of the JSON objects in `facts.json`.  The code
reads the access counter with `f.get("access_count", d)` (default 0 in
`learn`, default 1 in `top_facts` and in the eviction key), so the field
is optional here.  Counters are naturals: a negative stored counter
would make `math.log2(accessCount + 1)` raise a domain error in Python
and is outside this model. -/
structure Fact where
  fact : String
  priority : Int
  created : String
  accessed : String
  access_count : Option Nat
deriving Repr, DecidableEq

/-- The in-place update done by `Memory.learn` when an existing fact
matches (`f["priority"] = min(10, f["priority"] + 1)` etc.). -/
def bumpFact (f : Fact) (now : String) : Fact :=
  { f with
    priority := min 10 (f.priority + 1)
    accessed := now
    access_count := some (f.access_count.getD 0 + 1) }

/-- The scan in `Memory.learn`: update the first fact whose text equals
the new text case-insensitively; `none` when no fact matches. -/
def learnMatch (facts : List Fact) (t now : String) : Option (List Fact) :=
  match facts with
  | [] => none
  | f :: rest =>
      if pyLower f.fact = pyLower t then some (bumpFact f now :: rest)
      else (learnMatch rest t now).map (f :: ·)

/-- Eviction key `x["priority"] * x.get("access_count", 1)`. -/
def evictionKey (f : Fact) : Int := f.priority * (f.access_count.getD 1 : Int)

/-- The capacity step at the end of `Memory.learn`: if more than 50
facts are stored, sort by `priority * access_count` descending (Python
`list.sort(key=..., reverse=True)` is stable) and keep the first 50. -/
def decay (facts : List Fact) : List Fact :=
  if facts.length > 50 then
    (pySort (fun a b => evictionKey b ≤ evictionKey a) facts).take 50
  else facts

/-- `Memory.learn(fact_text, priority)` acting on the `facts` list.
`now` stands for `datetime.now().isoformat()`. -/
def learn (facts : List Fact) (t : String) (p : Int) (now : String) : List Fact :=
  match learnMatch facts t now with
  | some updated => updated
  | none =>
      decay (facts ++ [{ fact := t, priority := p, created := now,
                         accessed := now, access_count := some 1 }])

/-- The log2 base of a fact's ranking score:
`f.get("access_count", 1) + 1` (always `≥ 1`). -/
def scoreBase (f : Fact) : ℕ := f.access_count.getD 1 + 1

/-- The ranking score of `Memory.top_facts` is the real number
`priority * log2(access_count + 1)` (see `scoreR` below).  Ordering
and equality of two scores are encoded over `ℕ`:
`p * log2(b) ≤ q * log2(c) ↔ b^p ≤ c^q ↔ b^p⁺ * c^q⁻ ≤ c^q⁺ * b^p⁻`
for bases `≥ 1` (`log2` strictly increases on positives and
`x^p = x^p⁺ / x^p⁻`), so `score f ≤ score g ↔ tieKey f g ≤ tieKey g f`
— proved below as `tieKey_le_iff`.  CPython compares the scores as
double-precision floats; identical `(priority, access_count)` pairs
give bit-equal floats, which is the only tie the claims exercise. -/
def tieKey (f g : Fact) : ℕ :=
  scoreBase f ^ f.priority.toNat * scoreBase g ^ (-g.priority).toNat

/-- `score f ≤ score g`, in the `ℕ` encoding. -/
def scoreLe (f g : Fact) : Prop := tieKey f g ≤ tieKey g f

instance : DecidableRel scoreLe :=
  fun f g => inferInstanceAs (Decidable (tieKey f g ≤ tieKey g f))

/-- `Memory.top_facts(n)` builds the list of pairs `(score, f)` and
calls `scored.sort(reverse=True)`.  The pairs' second components are
`dict`s, which Python cannot order: whenever two scores are equal the
tuple comparison falls through to `dict < dict` and the sort raises
`TypeError`.  (For stores of this size CPython sorts with binary
insertion, which compares every tied pair it keeps adjacent or inserts,
so a tie does raise; with all scores distinct no dict is ever compared
and the sort returns the descending order, which the stable
`pySort` reproduces.) -/
def top_facts (facts : List Fact) (n : Nat) : Except String (List Fact) :=
  if List.Pairwise (fun f g => tieKey f g ≠ tieKey g f) facts then
    .ok ((pySort (fun f g => scoreLe g f) facts).take n)
  else
    .error "TypeError: unorderable dict tie-break in scored.sort"

/-- The slice of the `Memory` object that `Memory.context` reads:
`user` (`name`, `desktop`), `facts`, `errors["patterns"]` in dict
insertion order, and `history["sessions"]` summaries.  The `_load`
guards make `user`/`errors`/`history` dictionaries of this shape. -/
structure State where
  userName : String
  userDesktop : String
  facts : List Fact
  patterns : List (String × Int)
  sessions : List String
deriving Repr, DecidableEq

/-- The `P1` segment `f"User: {self.user['name']}, Desktop: {self.user['desktop']}"`. -/
def userSeg (m : State) : String :=
  "User: " ++ m.userName ++ ", Desktop: " ++ m.userDesktop

/-- One candidate segment of `Memory.context`: appended only when its
guard (`if <candidates> and used < budget:`) and the inner budget check
(`if used + len(seg) < budget:`) both hold, skipped whole otherwise.
The running pair is `(parts, used)`.  (For the last segment the source
does not bother updating `used`, which is never read again; updating it
here is observationally identical.) -/
def addSeg (budget : Int) (nonempty : Prop) [Decidable nonempty]
    (acc : List String × Nat) (seg : String) : List String × Nat :=
  if nonempty ∧ (acc.2 : Int) < budget then
    if ((acc.2 + seg.length : Nat) : Int) < budget then
      (acc.1 ++ [seg], acc.2 + seg.length)
    else acc
  else acc

/-- `Memory.context(budget_tokens)`: assembles `parts` under
`budget = budget_tokens * 4` and joins with newlines.  The user
identity segment `P1` is appended with no budget check at all.  A
`TypeError` raised by `top_facts` propagates (the call is not
guarded). -/
def context (m : State) (budget_tokens : Int) : Except String String :=
  let budget : Int := budget_tokens * 4
  let parts0 : List String := if m.userName ≠ "" then [userSeg m] else []
  let used0 : Nat := (parts0.map String.length).sum
  match top_facts m.facts 3 with
  | .error e => .error e
  | .ok top =>
    let a1 := addSeg budget (top ≠ []) (parts0, used0)
      ("Remember: " ++ joinSep " | " (top.map Fact.fact))
    let topErrors := (pySort (fun a b => b.2 ≤ a.2) m.patterns).take 2
    let a2 := addSeg budget (topErrors ≠ []) a1
      ("Avoid: " ++
        joinSep "; " (topErrors.map (fun kv => kv.1 ++ " (" ++ toString kv.2 ++ "x)")))
    let recent := m.sessions.drop (m.sessions.length - 2)
    let a3 := addSeg budget (recent ≠ []) a2
      ("Recent: " ++ joinSep " → " (recent.map (fun s => s.take 30)))
    .ok (if a3.1 ≠ [] then joinSep "\n" a3.1 else "")

end Memory

namespace Llm

/-! ## Role repair — `LLM._fix_roles` in `src/core/llm.py` -/

/-- One chat message (`{"role": ..., "content": ...}`).  Roles are
arbitrary strings, as in the Python dicts. -/
structure Msg where
  role : String
  content : String
deriving Repr, DecidableEq

/-- One iteration of the merge loop in `_fix_roles`, acting on the
output built so far in reverse order (head = most recent): a `system`
message is appended as is; otherwise a message whose role equals the
previous message's role is folded into it with a newline, else
appended. -/
def mergeStep (acc : List Msg) (msg : Msg) : List Msg :=
  if msg.role = "system" then msg :: acc
  else
    match acc with
    | [] => [msg]
    | prev :: rest =>
        if prev.role = msg.role then
          { role := prev.role, content := prev.content ++ "\n" ++ msg.content } :: rest
        else msg :: prev :: rest

/-- The whole merge pass of `_fix_roles`. -/
def mergeMsgs (msgs : List Msg) : List Msg :=
  (msgs.foldl mergeStep []).reverse

/-- "Ensure first non-system message is `user`": insert a placeholder
user turn before the first non-system message when that message is an
assistant message. -/
def fixFirst : List Msg → List Msg
  | [] => []
  | m :: rest =>
      if m.role = "system" then m :: fixFirst rest
      else if m.role = "assistant" then
        { role := "user", content := "(continuing)" } :: m :: rest
      else m :: rest

/-- "Must end with user for model to reply." -/
def fixLast (msgs : List Msg) : List Msg :=
  match msgs.getLast? with
  | some m =>
      if m.role = "assistant" then msgs ++ [{ role := "user", content := "Continue." }]
      else msgs
  | none => msgs

/-- "Safety: must have at least system + user" — append a placeholder
user message when every message is a system message (including the
empty sequence). -/
def ensureNonSystem (msgs : List Msg) : List Msg :=
  if msgs.all (fun m => m.role = "system") then
    msgs ++ [{ role := "user", content := "Hello." }]
  else msgs

/-- `LLM._fix_roles(messages)`. -/
def fix_roles (msgs : List Msg) : List Msg :=
  ensureNonSystem (fixLast (fixFirst (mergeMsgs msgs)))

/-- The first non-system message (`next(i for i, m in ... if m['role'] != 'system')`). -/
def firstNonSystem (msgs : List Msg) : Option Msg :=
  msgs.find? (fun m => m.role != "system")

/-- The adjacency invariant the merge pass establishes: a pair of
consecutive messages is acceptable when the second is a system message
or the roles differ (the merge arm fires exactly on its negation). -/
def roleOk (a b : Msg) : Prop := b.role = "system" ∨ a.role ≠ b.role

instance : DecidableRel roleOk := fun a b =>
  inferInstanceAs (Decidable (b.role = "system" ∨ a.role ≠ b.role))

end Llm

/-! ## Model-output parsing — regex searches of `src/myai.py` and
`src/agents.py`, modelled at character-list level.

The patterns used by the code all have the shape
`KW:?\s*\n?\s*(\w+)` or `KW:?\s*\n?\s*(.*)` (with `re.DOTALL`), with
the colon mandatory in some of them.  `\s*\n?\s*` accepts exactly the
same strings as `\s*`.  `re.search` returns the match at the leftmost
position where the whole pattern matches; since each pattern starts
with the literal `KW`, that is the leftmost occurrence of `KW` whose
tail admits the rest of the pattern.  `\w`/`\s` are modelled at their
ASCII core, which covers every marker and tool name in the repo. -/

/-- Python `\w`. -/
def isWordChar (c : Char) : Bool := c.isAlphanum || c = '_'

/-- Drop up to `n` leading `#` characters. -/
def dropSharps : Nat → List Char → List Char
  | 0, cs => cs
  | _ + 1, [] => []
  | n + 1, c :: cs => if c = '#' then dropSharps n cs else c :: cs

/-- `re.sub(r'^#{1,4}\s*', '', text, flags=re.MULTILINE)`: at each line
start, up to four `#` and the following whitespace run (which may span
newlines) are removed; scanning resumes at the first non-blank
character, which starts a new line exactly when the last removed blank
was a newline.  Fuel-indexed structural recursion (`fuel ≥ length`
always holds at the call site, and each step consumes at least one
character). -/
def stripHeadMarksF : Nat → Bool → List Char → List Char
  | 0, _, cs => cs
  | _ + 1, _, [] => []
  | fuel + 1, atStart, c :: cs =>
      if atStart ∧ c = '#' then
        let rest := dropSharps 4 (c :: cs)
        let ws := rest.takeWhile isPySpace
        stripHeadMarksF fuel (ws ≠ [] ∧ ws.getLast? = some '\n') (rest.dropWhile isPySpace)
      else c :: stripHeadMarksF fuel (c = '\n') cs

def stripHeadMarks (cs : List Char) : List Char :=
  stripHeadMarksF cs.length true cs

/-- Python `str.replace(ab, '')` for a two-character needle `[a, b]`:
removes non-overlapping occurrences left to right. -/
def removePair (a b : Char) : List Char → List Char
  | [] => []
  | [c] => [c]
  | c :: d :: cs =>
      if c = a ∧ d = b then removePair a b cs
      else c :: removePair a b (d :: cs)

/-- The normalization shared by `Coordinator._parse` and
`Agent._parse_answer`: strip heading markers, then `replace('**','')`. -/
def cleanMarkup (text : String) : List Char :=
  removePair '*' '*' (stripHeadMarks text.data)

/-- The normalization of `Agent._parse_tool`, which additionally
removes every backtick character (its extra `.replace` call). -/
def cleanToolText (text : String) : List Char :=
  (cleanMarkup text).filter (fun c => c ≠ '`')

/-- `re.search(KW + maybe-colon + r'\s*\n?\s*(\w+)', text)` with at
least `minWs` blanks required between marker and word (used for the
`TOOL\s+(\w+)` variant): the captured word at the leftmost viable
occurrence. -/
def findKwWord (kw : List Char) (optColon : Bool) (minWs : Nat) : List Char → Option String
  | [] => none
  | c :: cs =>
      if kw.isPrefixOf (c :: cs) then
        let after := (c :: cs).drop kw.length
        let after1 :=
          if optColon then
            match after with
            | ':' :: t => t
            | _ => after
          else after
        let ws := after1.takeWhile isPySpace
        let rest := after1.dropWhile isPySpace
        if ws.length ≥ minWs ∧ isWordChar (rest.headD ' ') then
          some (String.mk (rest.takeWhile isWordChar))
        else findKwWord kw optColon minWs cs
      else findKwWord kw optColon minWs cs

/-- `re.search(KW + maybe-colon + r'\s*\n?\s*(.*)', text, re.DOTALL)`:
the pattern matches at the leftmost occurrence of `KW` (the rest can
always match), capturing everything after the whitespace run. -/
def findKwRest (kw : List Char) (optColon : Bool) : List Char → Option (List Char)
  | [] => none
  | c :: cs =>
      if kw.isPrefixOf (c :: cs) then
        let after := (c :: cs).drop kw.length
        let after1 :=
          if optColon then
            match after with
            | ':' :: t => t
            | _ => after
          else after
        some (after1.dropWhile isPySpace)
      else findKwRest kw optColon cs

/-- The lazy capture `(.*?)(?:\n\n|\Z)` of the `Task:` pattern:
everything before the first blank line. -/
def upToBlank : List Char → List Char
  | [] => []
  | '\n' :: '\n' :: _ => []
  | c :: cs => c :: upToBlank cs

/-- Python `in` on strings (contiguous substring). -/
def containsSub (needle : List Char) : List Char → Bool
  | [] => needle.isEmpty
  | c :: cs => needle.isPrefixOf (c :: cs) || containsSub needle cs

namespace Agent

/-! ## Single-tier agent — `src/myai.py` -/

/-- `TOOL_NAMES` as computed from `TOOL_SCHEMAS` in `src/tools.py`
(the flat module that `myai.py` and `agents.py` import from). -/
def TOOL_NAMES : List String :=
  ["create_file", "read_file", "delete_file", "move_file", "find_files",
   "list_directory", "run_command", "python_exec", "open_application",
   "take_screenshot", "mouse_click", "mouse_move", "keyboard_type",
   "keyboard_hotkey", "clipboard_get", "clipboard_set", "download_file",
   "get_active_window", "wait", "create_directory", "web_search"]

/-- Exact-name lookup, then the fuzzy match of `_parse_tool`
(`name.lower() in tn or tn in name.lower()`, first registry hit). -/
def resolveName (name : String) : Option String :=
  if TOOL_NAMES.contains name then some name
  else
    TOOL_NAMES.find? (fun tn =>
      containsSub (pyLower name).data tn.data || containsSub tn.data (pyLower name).data)

/-- The pattern list of `_parse_tool`, in priority order:
`TOOL:`, `Tool:`, `Action:`, `tool:`, `Use:` (colon required, `\s*`),
then `TOOL\s+` (no colon, at least one blank). -/
def toolPats : List (List Char × Nat) :=
  [("TOOL:".data, 0), ("Tool:".data, 0), ("Action:".data, 0),
   ("tool:".data, 0), ("Use:".data, 0), ("TOOL".data, 1)]

def parseToolGo (clean : List Char) : List (List Char × Nat) → Option String
  | [] => none
  | (kw, mw) :: ps =>
      match findKwWord kw false mw clean with
      | some name =>
          match resolveName name with
          | some t => some t
          | none => parseToolGo clean ps
      | none => parseToolGo clean ps

/-- `Agent._parse_tool`, tool-name half.  The argument-extraction half
(JSON block parsing with quote repair, then schema-driven fragment
scanning) is not modelled: no claim depends on the extracted argument
values, only on whether a tool call was recognized (`if tool:` in
`Agent.send`). -/
def parse_tool (text : String) : Option String :=
  parseToolGo (cleanToolText text) toolPats

/-- `Agent._parse_answer`: first of `ANSWER:`, `Answer:`,
`Final Answer:`, `final answer:` (colon required) that occurs; captures
the rest of the text and strips it. -/
def parse_answer (text : String) : Option String :=
  let clean := cleanMarkup text
  let rec go : List (List Char) → Option String
    | [] => none
    | kw :: ps =>
        match findKwRest kw false clean with
        | some rest => some (pyStrip (String.mk rest))
        | none => go ps
  go ["ANSWER:".data, "Answer:".data, "Final Answer:".data, "final answer:".data]

/-- How one model response steers a round of `Agent.send`
(`src/myai.py` lines 390–442): the tool check runs first, then the
answer check; an extracted answer that is the empty string is falsy in
Python (`if answer:`) and falls through to the unparseable path. -/
inductive TurnIntent where
  | tool (name : String)
  | answer (a : String)
  | unparsed
deriving Repr, DecidableEq

def classify (response : String) : TurnIntent :=
  match parse_tool response with
  | some t => .tool t
  | none =>
      match parse_answer response with
      | some a => if a = "" then .unparsed else .answer a
      | none => .unparsed

/-- The round loop of `Agent.send` (`for round_n in range(8)`), with
the backend modelled as the stream `resp` of per-round reply texts (the
HTTP-error paths return `None` before any parsing and are outside the
claims; tool observations only feed later prompts, which `resp`
absorbs).  Returns the number of corrective re-prompts issued
(`round_n == 0` branch) and the result; `none` means the loop ran out
of rounds and `send` returns `None`. -/
def sendAux (resp : Nat → String) : Nat → Nat → Nat × Option String
  | _, 0 => (0, none)
  | n, fuel + 1 =>
      match classify (resp n) with
      | .tool _ => sendAux resp (n + 1) fuel
      | .answer a => (0, some a)
      | .unparsed =>
          if n = 0 then
            let r := sendAux resp (n + 1) fuel
            (r.1 + 1, r.2)
          else (0, some (resp n))

def send (resp : Nat → String) : Nat × Option String :=
  sendAux resp 0 8

end Agent

namespace Coord

/-! ## Coordinator parsing — `Coordinator._parse` in `src/agents.py` -/

inductive Intent where
  | final (ans : String)
  | delegate (worker task : String)
  | action (name : String)
  | text (clean : String)
deriving Repr, DecidableEq

/-- `Coordinator._parse(text)`.  Checks, in order: `Final Answer`
(colon optional), then `Delegate` + `Task`, then `Action`; otherwise
the cleaned text itself.  The `Action Input` JSON decoding is not
modelled (no claim depends on the argument values). -/
def parse (text : String) : Intent :=
  let clean := cleanMarkup text
  match findKwRest "Final Answer".data true clean with
  | some rest => .final (pyStrip (String.mk rest))
  | none =>
      match findKwWord "Delegate".data true 0 clean,
            findKwRest "Task".data true clean with
      | some w, some taskRest =>
          .delegate w (pyStrip (String.mk (upToBlank taskRest)))
      | _, _ =>
          match findKwWord "Action".data true 0 clean with
          | some name => .action name
          | none => .text (String.mk clean)

end Coord

namespace Worker

/-! ## Worker tool scoping — `WorkerAgent.execute` in `src/agents.py` -/

/-- `TOOL_GROUPS`. -/
def TOOL_GROUPS : List (String × List String) :=
  [("researcher", ["web_search", "read_file", "run_command", "python_exec"]),
   ("coder", ["create_file", "read_file", "run_command", "python_exec",
              "find_files", "list_directory", "create_directory"]),
   ("file_manager", ["create_file", "read_file", "delete_file", "move_file",
                     "find_files", "list_directory", "create_directory",
                     "download_file"]),
   ("pc_control", ["take_screenshot", "mouse_click", "mouse_move",
                   "keyboard_type", "keyboard_hotkey", "open_application",
                   "get_active_window", "clipboard_get", "clipboard_set"])]

/-- `TOOL_GROUPS.get(self.role, [])`. -/
def allowed (role : String) : List String :=
  (TOOL_GROUPS.lookup role).getD []

/-- The refusal observation
`f"Tool '{action}' not available for {role}. Use: {', '.join(allowed)}"`. -/
def refusalObs (role action : String) : String :=
  "Tool \x27" ++ action ++ "\x27 not available for " ++ role ++
    ". Use: " ++ joinSep ", " (allowed role)

/-- The scope check of `WorkerAgent.execute` for one parsed action:
either the refusal observation (tool not run), or the observation
produced by `execute_tool` (here the parameter `toolResult`).  The
boolean records whether `execute_tool` was invoked. -/
def dispatch (role action toolResult : String) : String × Bool :=
  if action ∈ allowed role then (toolResult, true)
  else (refusalObs role action, false)

end Worker

namespace Tools

/-! ## Tool dispatcher — `execute` / `execute_any` in
`src/tools/__init__.py`

Python exceptions are values `PyExc`; `isException` distinguishes
`Exception` subclasses (caught by `except Exception`) from
`BaseException`-only classes such as `SystemExit` and
`KeyboardInterrupt` (not caught).  Each effectful primitive the
branches use is a field of `Env`; argument mappings are modelled with
string values (every claim exercises string-valued arguments only). -/

structure PyExc where
  clsName : String
  msg : String
  isException : Bool
deriving Repr, DecidableEq

abbrev PyResult (α : Type) := Except PyExc α

abbrev Args := List (String × String)

/-- `args.get(k, d)`. -/
def getArg (args : Args) (k d : String) : String :=
  (args.lookup k).getD d

/-- `args[k]` — raises `KeyError` when absent. -/
def getReq (args : Args) (k : String) : PyResult String :=
  match args.lookup k with
  | some v => .ok v
  | none => .error ⟨"KeyError", "\x27" ++ k ++ "\x27", true⟩

/-- `f"{args.get(k)}"` — Python renders a missing key as `None`. -/
def pyRenderOpt (o : Option String) : String := o.getD "None"

/-- Python string truthiness fallback `s or d`. -/
def pyOr (s d : String) : String := if s = "" then d else s

/-- `s[:n] + marker if len(s) > n else s`. -/
def truncAt (s : String) (n : Nat) (marker : String) : String :=
  if s.length > n then s.take n ++ marker else s

/-- `s.replace("'", "''")`. -/
def doubleQuotes (s : String) : String :=
  String.mk (s.data.flatMap (fun c => if c = '\x27' then ['\x27', '\x27'] else [c]))

/-- The environment of effectful primitives used by the branches of
`execute`/`execute_any`.  A `PyResult`-valued field models a library
call that can raise; pure fields model calls the code cannot observe
failing (`ctypes` user32 calls, `_ps`, whose bare `except:` swallows
everything). -/
structure Env where
  pathName : String → String
  pathRender : String → String
  rootDir : String
  mkdirParents : String → PyResult Unit
  writeText : String → String → PyResult Unit
  readText : String → PyResult String
  pathExists : String → Bool
  isFile : String → Bool
  isDir : String → Bool
  unlink : String → PyResult Unit
  rmtree : String → PyResult Unit
  moveFile : String → String → PyResult Unit
  glob : String → String → PyResult (List String)
  iterdir : String → PyResult (List (String × Bool))
  runCommand : String → String → PyResult String
  execPython : String → PyResult String
  fetchSearch : String → PyResult (List String)
  unescapeHtml : String → String
  startfile : String → PyResult Unit
  screenshot : PyResult (Option String)
  toInt : String → PyResult Int
  clickOps : Unit → Unit
  sendKeys : String → Unit
  clipboardRead : Option String
  clipboardWrite : String → Unit
  urlretrieve : String → String → PyResult Unit
  windowTitle : String
  sleepSeconds : String → PyResult Unit
  customExists : String → Bool
  customLoad : String → PyResult Unit
  customHasExec : String → Bool
  customRun : String → Args → PyResult (String × Option String)

/-- The names of `BUILTIN_SCHEMAS`, in source order (used both for the
unknown-tool message of `execute` and the membership test of
`execute_any`). -/
def BUILTIN_NAMES : List String :=
  ["create_file", "read_file", "delete_file", "move_file", "find_files",
   "list_directory", "create_directory", "run_command", "python_exec",
   "web_search", "open_application", "take_screenshot", "mouse_click",
   "mouse_move", "keyboard_type", "keyboard_hotkey", "clipboard_get",
   "clipboard_set", "download_file", "get_active_window", "wait"]

/-- The keys of the `VK` virtual-key map. -/
def VK_NAMES : List String :=
  ["enter", "tab", "escape", "space", "backspace", "delete", "home", "end",
   "up", "down", "left", "right", "ctrl", "alt", "shift", "win",
   "f1", "f2", "f3", "f4", "f5", "f6"] ++
  ((List.range 26).map (fun i => String.mk [Char.ofNat ('a'.toNat + i)])) ++
  ((List.range 10).map (fun i => toString i))

/-- The item loop in `list_directory`: icon + name per entry, `...more`
appended and iteration stopped once 30 items have accumulated. -/
def listEntries : List (String × Bool) → Nat → List String
  | [], _ => []
  | (nm, d) :: rest, count =>
      let it := (if d then "📁 " else "📄 ") ++ nm
      if count + 1 ≥ 30 then [it, "...more"]
      else it :: listEntries rest (count + 1)

/-- `int(args.get(k, 0))`. -/
def getIntArg (env : Env) (args : Args) (k : String) : PyResult Int :=
  match args.lookup k with
  | none => .ok 0
  | some v => env.toInt v

/-- `args.get(k1) or args.get(k2) or ""`. -/
def orGet (args : Args) (k1 k2 : String) : String :=
  pyOr (getArg args k1 "") (pyOr (getArg args k2 "") "")

/-- The code selection of `python_exec`: `args.get("code") or
args.get("script") or ""`, then the first string value longer than 5
characters if still empty. -/
def pickCode (args : Args) : String :=
  let c := orGet args "code" "script"
  if c ≠ "" then c
  else ((args.map Prod.snd).find? (fun v => v.length > 5)).getD ""

/-- The body of `execute` (everything inside its `try:`), one branch
per tool, translated clause by clause.  HTML snippet extraction inside
`web_search` (two request attempts, regex scraping, length filter,
5-result cap) is folded into `Env.fetchSearch`; its inner
`except Exception` is modelled around that call. -/
def executeBody (env : Env) (name : String) (args : Args) :
    PyResult (String × Option String) :=
  if name = "create_file" then
    let fp := getArg args "file_path" ""
    let content := getArg args "content" ""
    if env.pathName fp = "" then .ok ("✗ No file_path provided", none)
    else do
      _ ← env.mkdirParents fp
      _ ← env.writeText fp content
      .ok ("✓ Created: " ++ env.pathRender fp ++ " (" ++
            toString content.length ++ " bytes)", none)
  else if name = "read_file" then
    let fp := getArg args "file_path" ""
    if ¬ env.pathExists fp then .ok ("✗ Not found: " ++ env.pathRender fp, none)
    else do
      let c ← env.readText fp
      .ok (pyOr (truncAt c 3000 "...(truncated)") "(empty)", none)
  else if name = "delete_file" then
    let fp := getArg args "file_path" ""
    if env.isFile fp then do
      _ ← env.unlink fp
      .ok ("✓ Deleted: " ++ env.pathRender fp, none)
    else if env.isDir fp then do
      _ ← env.rmtree fp
      .ok ("✓ Deleted dir: " ++ env.pathRender fp, none)
    else .ok ("✗ Not found: " ++ env.pathRender fp, none)
  else if name = "move_file" then do
    let src ← getReq args "source"
    let dst ← getReq args "destination"
    _ ← env.moveFile src dst
    .ok ("✓ Moved: " ++ src ++ " → " ++ dst, none)
  else if name = "find_files" then
    let d := getArg args "directory" ""
    if ¬ env.pathExists d then .ok ("✗ Not found: " ++ env.pathRender d, none)
    else do
      let files ← env.glob d (getArg args "pattern" "*")
      .ok (pyOr (joinSep "\n" (files.take 20)) "(none)", none)
  else if name = "list_directory" then
    let dp := getArg args "dir_path" ""
    if ¬ env.pathExists dp then .ok ("✗ Not found: " ++ env.pathRender dp, none)
    else do
      let entries ← env.iterdir dp
      .ok (pyOr (joinSep "\n" (listEntries entries 0)) "(empty)", none)
  else if name = "create_directory" then do
    let dp := getArg args "dir_path" ""
    _ ← env.mkdirParents dp
    .ok ("✓ Created: " ++ env.pathRender dp, none)
  else if name = "run_command" then do
    let out ← env.runCommand (getArg args "command" "") (getArg args "cwd" env.rootDir)
    .ok (pyOr (truncAt (pyStrip out) 2000 "...(truncated)") "(no output)", none)
  else if name = "python_exec" then
    let code := pickCode args
    if code = "" then
      .ok ("✗ No code. Use \x7b\"code\": \"print(\x27hi\x27)\"\x7d", none)
    else do
      let out ← env.execPython code
      .ok (pyOr (truncAt out 2000 "...") "(no output)", none)
  else if name = "web_search" then
    let query := orGet args "query" "search"
    if query = "" then .ok ("✗ No query", none)
    else
      match env.fetchSearch query with
      | .ok results =>
          if results ≠ [] then
            .ok (joinSep "\n" (results.enum.map
                  (fun ir => toString (ir.1 + 1) ++ ". " ++ env.unescapeHtml ir.2)),
                 none)
          else .ok ("No results found. The web search may be blocked.", none)
      | .error e =>
          if e.isException then .ok ("✗ Search error: " ++ e.msg, none)
          else .error e
  else if name = "open_application" then do
    _ ← env.startfile (getArg args "target" "")
    .ok ("✓ Opened: " ++ pyRenderOpt (args.lookup "target"), none)
  else if name = "take_screenshot" then do
    let b ← env.screenshot
    match b with
    | some b64 => .ok ("Screenshot captured.", some b64)
    | none => .ok ("✗ Failed", none)
  else if name = "mouse_click" then do
    let x ← getIntArg env args "x"
    let y ← getIntArg env args "y"
    let btn := getArg args "button" "left"
    let _ := env.clickOps ()
    .ok ("✓ Clicked " ++ btn ++ " at (" ++ toString x ++ "," ++ toString y ++ ")", none)
  else if name = "mouse_move" then do
    let _ ← getIntArg env args "x"
    let _ ← getIntArg env args "y"
    let _ := env.clickOps ()
    .ok ("✓ Moved to (" ++ pyRenderOpt (args.lookup "x") ++ "," ++
          pyRenderOpt (args.lookup "y") ++ ")", none)
  else if name = "keyboard_type" then
    let text := getArg args "text" ""
    let _ := env.sendKeys (doubleQuotes text)
    .ok ("✓ Typed: " ++ text.take 40, none)
  else if name = "keyboard_hotkey" then
    let keys := ((getArg args "keys" "").splitOn "+").map (fun k => (pyStrip k).toLower)
    if keys.any (fun k => ¬ VK_NAMES.contains k) then
      .ok ("✗ Unknown key in: " ++ pyRenderOpt (args.lookup "keys"), none)
    else .ok ("✓ Pressed: " ++ pyRenderOpt (args.lookup "keys"), none)
  else if name = "clipboard_get" then
    match env.clipboardRead with
    | some t => .ok (pyOr t "(empty)", none)
    | none => .ok ("(empty)", none)
  else if name = "clipboard_set" then
    let _ := env.clipboardWrite (doubleQuotes (getArg args "text" ""))
    .ok ("✓ Clipboard set", none)
  else if name = "download_file" then do
    _ ← env.urlretrieve (getArg args "url" "") (getArg args "save_path" "")
    .ok ("✓ Downloaded to: " ++ pyRenderOpt (args.lookup "save_path"), none)
  else if name = "get_active_window" then
    .ok ("Window: " ++ env.windowTitle, none)
  else if name = "wait" then do
    _ ← (match args.lookup "seconds" with
         | none => (.ok () : PyResult Unit)
         | some v => env.sleepSeconds v)
    .ok ("✓ Waited " ++ pyRenderOpt (args.lookup "seconds") ++ "s", none)
  else
    .ok ("✗ Unknown tool: " ++ name ++ ". Available: " ++
          joinSep ", " BUILTIN_NAMES, none)

/-- `execute(name, args)`: the body above wrapped in
`try: ... except Exception as e: return f"✗ {type(e).__name__}: {e}", None`.
Only `Exception` subclasses are caught; a `BaseException`-only
exception (e.g. `SystemExit` out of `exec` in `python_exec`)
propagates to the caller. -/
def execute (env : Env) (name : String) (args : Args) :
    PyResult (String × Option String) :=
  match executeBody env name args with
  | .ok r => .ok r
  | .error e =>
      if e.isException then .ok ("✗ " ++ e.clsName ++ ": " ++ e.msg, none)
      else .error e

/-- The body of the custom-tool `try:` in `execute_any`: load the
module, and call its `execute` entry point when it has one (`none` =
the module had no `execute` attribute, so the `try:` block ends without
returning). -/
def customCall (env : Env) (name : String) (args : Args) :
    PyResult (Option (String × Option String)) := do
  _ ← env.customLoad name
  if env.customHasExec name then do
    let v ← env.customRun name args
    pure (some v)
  else pure none

/-- `execute_any(name, args)`: built-ins first; otherwise a custom tool
module `tools/custom/{name}.py` is loaded and its `execute` entry point
called, with `except Exception` converting failures into a
`✗ Custom tool error` observation; a module without an `execute`
attribute falls through to the unknown-tool observation. -/
def execute_any (env : Env) (name : String) (args : Args) :
    PyResult (String × Option String) :=
  if name ∈ BUILTIN_NAMES then execute env name args
  else if env.customExists name then
    match customCall env name args with
    | .ok (some v) => .ok v
    | .ok none => .ok ("✗ Unknown tool: " ++ name, none)
    | .error e =>
        if e.isException then .ok ("✗ Custom tool error: " ++ e.msg, none)
        else .error e
  else .ok ("✗ Unknown tool: " ++ name, none)

/-- An environment in which every primitive succeeds blandly; the
concrete counterexample/witness environments are variations of it. -/
def defaultEnv : Env where
  pathName := fun s => s
  pathRender := fun s => s
  rootDir := "C:\\parv"
  mkdirParents := fun _ => .ok ()
  writeText := fun _ _ => .ok ()
  readText := fun _ => .ok ""
  pathExists := fun _ => false
  isFile := fun _ => false
  isDir := fun _ => false
  unlink := fun _ => .ok ()
  rmtree := fun _ => .ok ()
  moveFile := fun _ _ => .ok ()
  glob := fun _ _ => .ok []
  iterdir := fun _ => .ok []
  runCommand := fun _ _ => .ok ""
  execPython := fun _ => .ok ""
  fetchSearch := fun _ => .ok []
  unescapeHtml := fun s => s
  startfile := fun _ => .ok ()
  screenshot := .ok none
  toInt := fun _ => .ok 0
  clickOps := fun _ => ()
  sendKeys := fun _ => ()
  clipboardRead := none
  clipboardWrite := fun _ => ()
  urlretrieve := fun _ _ => .ok ()
  windowTitle := ""
  sleepSeconds := fun _ => .ok ()
  customExists := fun _ => false
  customLoad := fun _ => .ok ()
  customHasExec := fun _ => false
  customRun := fun _ _ => .ok ("", none)

/-- The environment in which `exec(code)` raises `SystemExit` — what
CPython does for `code = "raise SystemExit"` (`sys.exit()` raises the
same class).  `SystemExit` subclasses `BaseException`, not
`Exception`. -/
def sysExitEnv : Env :=
  { defaultEnv with execPython := fun _ => .error ⟨"SystemExit", "", false⟩ }

end Tools

/-! # Theorems -/

/-! ## Generic facts about `joinSep` -/

theorem joinSep_length (sep : String) :
    ∀ l : List String, l ≠ [] →
      (joinSep sep l).length =
        (l.map String.length).sum + sep.length * (l.length - 1) := by
  intro l
  induction l with
  | nil => intro h; exact absurd rfl h
  | cons s rest ih =>
      intro _
      cases rest with
      | nil => simp [joinSep]
      | cons t r =>
          have h2 : (t :: r) ≠ ([] : List String) := by simp
          have hms : (joinSep sep (s :: t :: r)).length
              = s.length + sep.length + (joinSep sep (t :: r)).length := by
            simp [joinSep, String.length_append]
          rw [hms, ih h2]
          simp only [List.map_cons, List.sum_cons, List.length_cons,
            Nat.add_sub_cancel]
          ring

theorem mem_data_joinSep (sep x : String) :
    ∀ l : List String, x ∈ l → x.data <:+: (joinSep sep l).data := by
  intro l
  induction l with
  | nil => intro h; cases h
  | cons s rest ih =>
      intro hx
      cases rest with
      | nil =>
          rcases List.mem_cons.mp hx with h | h
          · subst h; exact List.infix_rfl
          · cases h
      | cons t r =>
          rcases List.mem_cons.mp hx with h | h
          · subst h
            simp only [joinSep, String.data_append]
            exact ⟨[], sep.data ++ (joinSep sep (t :: r)).data, by simp⟩
          · have hi := ih h
            simp only [joinSep, String.data_append]
            exact hi.trans ⟨s.data ++ sep.data, [], by simp⟩

namespace Memory

/-! ## Certification of the score encoding -/

private theorem zpow_toNat_div (b : ℝ) (_hb : 0 < b) (p : ℤ) :
    b ^ p = b ^ p.toNat / b ^ (-p).toNat := by
  cases p with
  | ofNat n => simp [zpow_natCast]
  | negSucc n =>
      rw [zpow_negSucc]
      have h2 : (-Int.negSucc n).toNat = n + 1 := rfl
      simp [h2, one_div]

/-- The `ℕ` encoding used by `top_facts` is order-faithful: comparing
the cross products `tieKey` is comparing the real ranking scores
`priority * log2(access_count + 1)`. -/
theorem tieKey_le_iff (f g : Fact) :
    (tieKey f g ≤ tieKey g f) ↔
      (f.priority : ℝ) * Real.logb 2 (scoreBase f) ≤
        (g.priority : ℝ) * Real.logb 2 (scoreBase g) := by
  have hbf : (0 : ℝ) < (scoreBase f : ℝ) := by
    have : (1 : ℕ) ≤ scoreBase f := Nat.le_add_left 1 _
    exact_mod_cast Nat.lt_of_lt_of_le Nat.zero_lt_one this
  have hbg : (0 : ℝ) < (scoreBase g : ℝ) := by
    have : (1 : ℕ) ≤ scoreBase g := Nat.le_add_left 1 _
    exact_mod_cast Nat.lt_of_lt_of_le Nat.zero_lt_one this
  have hlog2 : (0 : ℝ) < Real.log 2 := Real.log_pos (by norm_num)
  rw [Real.logb, Real.logb]
  rw [mul_div_assoc', mul_div_assoc', div_le_div_iff_of_pos_right hlog2]
  rw [← Real.log_zpow, ← Real.log_zpow,
    Real.log_le_log_iff (zpow_pos hbf _) (zpow_pos hbg _),
    zpow_toNat_div _ hbf, zpow_toNat_div _ hbg,
    div_le_div_iff₀ (pow_pos hbf _) (pow_pos hbg _)]
  rw [tieKey, tieKey]
  rw [← Nat.cast_le (α := ℝ)]
  push_cast
  constructor <;> intro h <;> linarith

theorem tieKey_eq_iff (f g : Fact) :
    (tieKey f g = tieKey g f) ↔
      (f.priority : ℝ) * Real.logb 2 (scoreBase f) =
        (g.priority : ℝ) * Real.logb 2 (scoreBase g) := by
  constructor
  · intro h
    exact le_antisymm ((tieKey_le_iff f g).mp h.le) ((tieKey_le_iff g f).mp h.ge)
  · intro h
    exact le_antisymm ((tieKey_le_iff f g).mpr h.le) ((tieKey_le_iff g f).mpr h.ge)

/-! ## Behaviour of `learn` -/

theorem learnMatch_some_spec :
    ∀ (facts : List Fact) (t now : String) (out : List Fact),
      learnMatch facts t now = some out →
      ∃ i, ∃ h : i < facts.length,
        pyLower (facts.get ⟨i, h⟩).fact = pyLower t ∧
        out = facts.set i (bumpFact (facts.get ⟨i, h⟩) now) := by
  intro facts t now
  induction facts with
  | nil => intro out h; simp [learnMatch] at h
  | cons f rest ih =>
      intro out h
      by_cases hm : pyLower f.fact = pyLower t
      · simp only [learnMatch, if_pos hm, Option.some.injEq] at h
        refine ⟨0, by simp, by simpa using hm, ?_⟩
        simp [← h]
      · simp only [learnMatch, if_neg hm, Option.map_eq_some'] at h
        obtain ⟨out', ho, hout⟩ := h
        obtain ⟨i, hi, hml, hset⟩ := ih out' ho
        refine ⟨i + 1, by simpa using Nat.succ_lt_succ hi, by simpa using hml, ?_⟩
        simp [← hout, hset]

theorem learnMatch_eq_none_iff (facts : List Fact) (t now : String) :
    learnMatch facts t now = none ↔ ∀ f ∈ facts, pyLower f.fact ≠ pyLower t := by
  induction facts with
  | nil => simp [learnMatch]
  | cons f rest ih =>
      by_cases hm : pyLower f.fact = pyLower t
      · simp [learnMatch, hm]
      · simp [learnMatch, hm, Option.map_eq_none', ih]

theorem mem_decay {f : Fact} {facts : List Fact} (h : f ∈ decay facts) :
    f ∈ facts := by
  unfold decay at h
  split at h
  · exact ((List.perm_insertionSort _ facts).mem_iff).mp (List.take_subset 50 _ h)
  · exact h

theorem decay_eq_self {facts : List Fact} (h : facts.length ≤ 50) :
    decay facts = facts := by
  unfold decay
  rw [if_neg (by omega)]

/-- The shape of `learn` when some stored fact matches
case-insensitively: the first matching fact is replaced by its bumped
version and nothing else happens. -/
theorem learn_match_eq (facts : List Fact) (t : String) (p : Int) (now : String)
    (hex : ∃ f ∈ facts, pyLower f.fact = pyLower t) :
    ∃ i, ∃ h : i < facts.length,
      pyLower (facts.get ⟨i, h⟩).fact = pyLower t ∧
      learn facts t p now = facts.set i (bumpFact (facts.get ⟨i, h⟩) now) := by
  have hne : learnMatch facts t now ≠ none := by
    rw [Ne, learnMatch_eq_none_iff]
    push_neg
    obtain ⟨f, hf, hm⟩ := hex
    exact ⟨f, hf, hm⟩
  obtain ⟨out, hout⟩ := Option.ne_none_iff_exists'.mp hne
  obtain ⟨i, h, hm, hset⟩ := learnMatch_some_spec facts t now out hout
  refine ⟨i, h, hm, ?_⟩
  rw [learn, hout, hset]

/-- The shape of `learn` when no stored fact matches: the new fact is
appended at the given priority (and the capacity step runs). -/
theorem learn_insert_eq (facts : List Fact) (t : String) (p : Int) (now : String)
    (hno : ∀ f ∈ facts, pyLower f.fact ≠ pyLower t) :
    learn facts t p now =
      decay (facts ++ [{ fact := t, priority := p, created := now,
                         accessed := now, access_count := some 1 }]) := by
  rw [learn, (learnMatch_eq_none_iff facts t now).mpr hno]

/-- C2: from the empty store, `learn("X", 5)` then `learn("x", 5)`
leaves exactly one fact, with access count 2 and priority 6; in
general, a `learn` whose text matches a stored fact case-insensitively
bumps that fact's priority by one (ceiling 10), increments its access
count and refreshes its timestamp, while a non-matching `learn` (on a
store below the 50-fact capacity) appends a new fact at the given
priority. -/
theorem learn_bump_or_insert :
    (learn (learn [] "X" 5 "t1") "x" 5 "t2" =
      [{ fact := "X", priority := 6, created := "t1", accessed := "t2",
         access_count := some 2 }]) ∧
    (∀ (facts : List Fact) (t : String) (p : Int) (now : String),
      (∃ f ∈ facts, pyLower f.fact = pyLower t) →
      ∃ i, ∃ h : i < facts.length,
        pyLower (facts.get ⟨i, h⟩).fact = pyLower t ∧
        learn facts t p now = facts.set i
          { facts.get ⟨i, h⟩ with
            priority := min 10 ((facts.get ⟨i, h⟩).priority + 1)
            accessed := now
            access_count := some ((facts.get ⟨i, h⟩).access_count.getD 0 + 1) }) ∧
    (∀ (facts : List Fact) (t : String) (p : Int) (now : String),
      (∀ f ∈ facts, pyLower f.fact ≠ pyLower t) → facts.length < 50 →
      learn facts t p now = facts ++
        [{ fact := t, priority := p, created := now, accessed := now,
           access_count := some 1 }]) := by
  refine ⟨by decide, ?_, ?_⟩
  · intro facts t p now hex
    exact learn_match_eq facts t p now hex
  · intro facts t p now hno hlen
    rw [learn_insert_eq facts t p now hno, decay_eq_self (by simp; omega)]

/-- Witness for `learn_bump_or_insert`: both quantified parts applied
at concrete inputs, all hypotheses discharged there. -/
theorem learn_bump_or_insert_witness :
    (learn [] "Y" 4 "s0" =
      [{ fact := "Y", priority := 4, created := "s0", accessed := "s0",
         access_count := some 1 }]) ∧
    (learn [{ fact := "A", priority := 5, created := "c0", accessed := "a0",
              access_count := some 1 }] "a" 7 "n1").length = 1 := by
  constructor
  · simpa using
      (learn_bump_or_insert.2.2 [] "Y" 4 "s0" (by simp) (by simp))
  · obtain ⟨i, h, -, heq⟩ :=
      learn_bump_or_insert.2.1
        [{ fact := "A", priority := 5, created := "c0", accessed := "a0",
           access_count := some 1 }] "a" 7 "n1"
        ⟨_, List.mem_singleton_self _, by decide⟩
    rw [heq]
    simp

/-- C10: when `learn(t, p)` finds a case-insensitive match, only the
first matching fact changes, and only in its `priority`, `accessed` and
`access_count` fields — its text and creation timestamp survive, every
other position of the store is untouched, and the store size is
unchanged (no insertion, no eviction). -/
theorem learn_match_frame :
    ∀ (facts : List Fact) (t : String) (p : Int) (now : String),
      (∃ f ∈ facts, pyLower f.fact = pyLower t) →
      ∃ i, ∃ h : i < facts.length,
        pyLower (facts.get ⟨i, h⟩).fact = pyLower t ∧
        learn facts t p now = facts.set i (bumpFact (facts.get ⟨i, h⟩) now) ∧
        (bumpFact (facts.get ⟨i, h⟩) now).fact = (facts.get ⟨i, h⟩).fact ∧
        (bumpFact (facts.get ⟨i, h⟩) now).created = (facts.get ⟨i, h⟩).created ∧
        (learn facts t p now).length = facts.length ∧
        (∀ j, j ≠ i → (learn facts t p now)[j]? = facts[j]?) := by
  intro facts t p now hex
  obtain ⟨i, h, hm, heq⟩ := learn_match_eq facts t p now hex
  refine ⟨i, h, hm, heq, rfl, rfl, ?_, ?_⟩
  · rw [heq, List.length_set]
  · intro j hj
    rw [heq, List.getElem?_set_ne (Ne.symm hj)]

/-- Witness for `learn_match_frame`: a two-fact store in which the
second fact matches; position 0 is untouched and the size stays 2. -/
theorem learn_match_frame_witness :
    (learn [{ fact := "keep", priority := 3, created := "c0", accessed := "a0",
              access_count := some 4 },
            { fact := "Hit", priority := 5, created := "c1", accessed := "a1",
              access_count := some 1 }] "hIT" 9 "n2").length = 2 ∧
    (learn [{ fact := "keep", priority := 3, created := "c0", accessed := "a0",
              access_count := some 4 },
            { fact := "Hit", priority := 5, created := "c1", accessed := "a1",
              access_count := some 1 }] "hIT" 9 "n2")[0]? =
      some { fact := "keep", priority := 3, created := "c0", accessed := "a0",
             access_count := some 4 } := by
  obtain ⟨i, h, hm, heq, -, -, hlen, hframe⟩ :=
    learn_match_frame
      [{ fact := "keep", priority := 3, created := "c0", accessed := "a0",
         access_count := some 4 },
       { fact := "Hit", priority := 5, created := "c1", accessed := "a1",
         access_count := some 1 }] "hIT" 9 "n2"
      ⟨_, List.mem_cons_of_mem _ (List.mem_singleton_self _), by decide⟩
  have hi : i ≠ 0 := by
    intro h0
    subst h0
    have hm0 : pyLower "keep" = pyLower "hIT" := by simpa [List.get] using hm
    exact absurd hm0 (by decide)
  refine ⟨hlen, ?_⟩
  rw [hframe 0 (Ne.symm hi)]
  rfl

/-- C8 counterexample: a single `learn` call with priority argument 11
leaves the store holding a fact whose priority is 11, outside `[0, 10]`
— new facts are stored at the given priority unclamped. -/
theorem learn_priority_range_cex :
    (learn [] "a" 11 "t0").map Fact.priority = [11] ∧ ¬ ((11 : Int) ≤ 10) := by
  decide

/-- C8 (amended): after any sequence of `learn` calls whose priority
arguments all lie in `[0, 10]`, every stored fact's priority lies in
`[0, 10]` (a matching call stores `min(10, p + 1) ∈ [1, 10]`, an
inserting call stores the given priority, and eviction only removes
facts). -/
theorem learn_priority_range :
    ∀ (calls : List (String × Int × String)),
      (∀ c ∈ calls, 0 ≤ c.2.1 ∧ c.2.1 ≤ 10) →
      ∀ f ∈ calls.foldl (fun fs c => learn fs c.1 c.2.1 c.2.2) [],
        0 ≤ f.priority ∧ f.priority ≤ 10 := by
  have hstep : ∀ (facts : List Fact) (t : String) (p : Int) (now : String),
      (∀ f ∈ facts, 0 ≤ f.priority ∧ f.priority ≤ 10) → 0 ≤ p → p ≤ 10 →
      ∀ f ∈ learn facts t p now, 0 ≤ f.priority ∧ f.priority ≤ 10 := by
    intro facts t p now hinv hp0 hp1 f hf
    rw [learn] at hf
    cases hlm : learnMatch facts t now with
    | some out =>
        rw [hlm] at hf
        obtain ⟨i, h, -, hset⟩ := learnMatch_some_spec facts t now out hlm
        rw [hset] at hf
        rcases List.mem_or_eq_of_mem_set hf with hmem | hbump
        · exact hinv f hmem
        · have hg := hinv (facts.get ⟨i, h⟩) (facts.get_mem i h)
          rw [hbump]
          unfold bumpFact
          constructor
          · exact le_min (by norm_num) (by omega)
          · exact min_le_left _ _
    | none =>
        rw [hlm] at hf
        rcases List.mem_append.mp (mem_decay hf) with hmem | hnew
        · exact hinv f hmem
        · rw [List.mem_singleton.mp hnew]
          exact ⟨hp0, hp1⟩
  intro calls
  have hgen : ∀ (start : List Fact),
      (∀ f ∈ start, 0 ≤ f.priority ∧ f.priority ≤ 10) →
      (∀ c ∈ calls, 0 ≤ c.2.1 ∧ c.2.1 ≤ 10) →
      ∀ f ∈ calls.foldl (fun fs c => learn fs c.1 c.2.1 c.2.2) start,
        0 ≤ f.priority ∧ f.priority ≤ 10 := by
    induction calls with
    | nil => intro start hs _ f hf; exact hs f hf
    | cons c rest ih =>
        intro start hs hc f hf
        have hcall := hc c (List.mem_cons_self c rest)
        exact ih (learn start c.1 c.2.1 c.2.2)
          (hstep start c.1 c.2.1 c.2.2 hs hcall.1 hcall.2)
          (fun d hd => hc d (List.mem_cons_of_mem c hd)) f hf
  exact fun hc => hgen [] (by simp) hc

/-- Witness for `learn_priority_range`: one in-range call from the
empty store; the stored fact is in range. -/
theorem learn_priority_range_witness :
    0 ≤ ({ fact := "a", priority := 5, created := "t", accessed := "t",
           access_count := some 1 } : Fact).priority ∧
    ({ fact := "a", priority := 5, created := "t", accessed := "t",
       access_count := some 1 } : Fact).priority ≤ 10 := by
  exact learn_priority_range [("a", 5, "t")] (by decide) _ (by decide)

/-- C9: `top_facts` does not return on every store — on a store with
two distinct facts of equal score (equal priority and access count,
giving bit-equal floats) Python's `scored.sort(reverse=True)` compares
the `dict` tie-breakers and raises `TypeError`, so no (sorted) list is
produced; the claim's docstring-level contract is broken by this tie
case. -/
theorem top_facts_tie_raises :
    top_facts [{ fact := "alpha", priority := 5, created := "c1",
                 accessed := "a1", access_count := some 1 },
               { fact := "beta", priority := 5, created := "c2",
                 accessed := "a2", access_count := some 1 }] 5 =
      .error "TypeError: unorderable dict tie-break in scored.sort" ∧
    tieKey { fact := "alpha", priority := 5, created := "c1",
             accessed := "a1", access_count := some 1 }
           { fact := "beta", priority := 5, created := "c2",
             accessed := "a2", access_count := some 1 } =
      tieKey { fact := "beta", priority := 5, created := "c2",
               accessed := "a2", access_count := some 1 }
             { fact := "alpha", priority := 5, created := "c1",
               accessed := "a1", access_count := some 1 } := by
  constructor
  · rfl
  · decide

theorem addSeg_cases (budget : Int) (ne : Prop) [Decidable ne]
    (acc : List String × Nat) (seg : String) :
    addSeg budget ne acc seg = acc ∨
      (addSeg budget ne acc seg = (acc.1 ++ [seg], acc.2 + seg.length) ∧
        ((acc.2 + seg.length : Nat) : Int) < budget) := by
  unfold addSeg
  split
  · split
    · right; exact ⟨rfl, by assumption⟩
    · left; rfl
  · left; rfl

/-- The invariant each `addSeg` step maintains: the character count is
the sum of the part lengths; the parts are still exactly the `P1`
prefix or the count is strictly under budget; at most one part is added
per step. -/
theorem addSeg_invariant (budget : Int) (ne : Prop) [Decidable ne]
    (acc : List String × Nat) (seg : String) (P0 : List String) (n : Nat)
    (hsum : (acc.1.map String.length).sum = acc.2)
    (hd : acc.1 = P0 ∨ ((acc.2 : Nat) : Int) < budget)
    (hl : acc.1.length ≤ n) :
    ((addSeg budget ne acc seg).1.map String.length).sum =
        (addSeg budget ne acc seg).2 ∧
      ((addSeg budget ne acc seg).1 = P0 ∨
        (((addSeg budget ne acc seg).2 : Nat) : Int) < budget) ∧
      (addSeg budget ne acc seg).1.length ≤ n + 1 := by
  rcases addSeg_cases budget ne acc seg with he | ⟨he, hb⟩
  · rw [he]
    exact ⟨hsum, hd, by omega⟩
  · rw [he]
    refine ⟨by simp [hsum], Or.inr (by simpa using hb), ?_⟩
    simp only [List.length_append, List.length_cons, List.length_nil]
    omega

/-- C3 counterexample: with a token budget of 0 and a known user, the
rendered context is the user-identity line, whose length exceeds
`budget × 4` — the `P1` segment is appended without any budget check. -/
theorem context_budget_cex :
    context { userName := "A", userDesktop := "B", facts := [],
              patterns := [], sessions := [] } 0 = .ok "User: A, Desktop: B" ∧
    ¬ (("User: A, Desktop: B".length : Int) ≤ 0 * 4) := by
  exact ⟨rfl, by decide⟩

/-- The final length bound, abstracted over the assembled parts: if
the parts are either exactly the unchecked `P1` prefix or their total
character count is under budget, and there are at most four of them,
the newline-joined result is at most
`max (P1 length) (budget + 2)` characters long. -/
theorem joined_bound (budget : Int) (P0 parts : List String) (U : Nat)
    (hU : (P0.map String.length).sum = U)
    (hP0 : P0.length ≤ 1)
    (hdisj : parts = P0 ∨ ((parts.map String.length).sum : Int) < budget)
    (hlen : parts.length ≤ 4) :
    (((if parts ≠ [] then joinSep "\n" parts else "").length : Nat) : Int) ≤
      max (U : Int) (budget + 2) := by
  by_cases hne : parts = []
  · simp only [hne, ne_eq, not_true_eq_false, if_false]
    exact le_trans (by exact_mod_cast Int.natCast_nonneg U) (le_max_left _ _)
  · rw [if_pos hne]
    have hjl := joinSep_length "\n" parts hne
    rcases hdisj with hdP | hdB
    · subst hdP
      cases hp : parts with
      | nil => exact absurd hp hne
      | cons u rest =>
          have hrest : rest = [] := by
            rw [hp] at hP0
            simpa using List.length_eq_zero.mp (by simpa using hP0)
          subst hrest
          rw [hp] at hU
          have hj1 : joinSep "\n" [u] = u := rfl
          rw [hj1]
          have hUu : U = u.length := by simpa using hU.symm
          rw [hUu]
          exact le_max_left _ _
    · have h1 : 0 < parts.length := List.length_pos.mpr hne
      have hle : ((joinSep "\n" parts).length : Int) ≤ budget + 2 := by
        rw [hjl]
        have hnl : ("\n" : String).length = 1 := rfl
        rw [hnl]
        omega
      exact le_trans hle (le_max_right _ _)

/-- C3 (amended): whenever `context` returns a string (the fact-ranking
step can raise on score ties), the user-identity segment is included
regardless of budget, every other segment is appended only if the
running character count stays under `budget_tokens * 4` (skipped whole,
never truncated), and the newline separators are not counted; hence the
output length is at most
`max (length of the user segment) (budget_tokens * 4 + 2)`. -/
theorem context_length_bound :
    ∀ (m : State) (b : Int) (s : String),
      context m b = .ok s →
      (s.length : Int) ≤
        max (((if m.userName ≠ "" then (userSeg m).length else 0 : ℕ)) : Int)
            (b * 4 + 2) := by
  intro m b s h
  simp only [context] at h
  cases htf : top_facts m.facts 3 with
  | error e => rw [htf] at h; cases h
  | ok top =>
      rw [htf] at h
      simp only [Except.ok.injEq] at h
      subst h
      have hU0 : ((if m.userName ≠ "" then [userSeg m]
          else ([] : List String)).map String.length).sum =
          (if m.userName ≠ "" then (userSeg m).length else 0) := by
        split <;> simp
      have hlP0 : (if m.userName ≠ "" then [userSeg m]
          else ([] : List String)).length ≤ 1 := by
        split <;> simp
      have h1 := addSeg_invariant (b * 4) (top ≠ [])
        ((if m.userName ≠ "" then [userSeg m] else ([] : List String)),
          ((if m.userName ≠ "" then [userSeg m]
            else ([] : List String)).map String.length).sum)
        ("Remember: " ++ joinSep " | " (top.map Fact.fact)) _ 1 rfl
        (Or.inl rfl) hlP0
      have h2 := addSeg_invariant (b * 4)
        ((pySort (fun a b => b.2 ≤ a.2) m.patterns).take 2 ≠ []) _
        ("Avoid: " ++ joinSep "; "
          (((pySort (fun a b => b.2 ≤ a.2) m.patterns).take 2).map
            (fun kv => kv.1 ++ " (" ++ toString kv.2 ++ "x)"))) _ 2
        h1.1 h1.2.1 h1.2.2
      have h3 := addSeg_invariant (b * 4)
        (m.sessions.drop (m.sessions.length - 2) ≠ []) _
        ("Recent: " ++ joinSep " → "
          ((m.sessions.drop (m.sessions.length - 2)).map
            (fun s => s.take 30))) _ 3
        h2.1 h2.2.1 h2.2.2
      exact joined_bound (b * 4) _ _ _ hU0 hlP0
        (h3.2.1.imp id (fun hb => by rw [h3.1]; exact hb)) h3.2.2

/-- Witness for `context_length_bound`, at the state of
`context_budget_cex` (nonempty user, zero budget). -/
theorem context_length_bound_witness :
    (("User: A, Desktop: B".length : Nat) : Int) ≤
      max (((if ("A" : String) ≠ "" then
              (userSeg { userName := "A", userDesktop := "B", facts := [],
                         patterns := [], sessions := [] }).length
            else 0 : ℕ)) : Int) (0 * 4 + 2) :=
  context_length_bound
    { userName := "A", userDesktop := "B", facts := [], patterns := [],
      sessions := [] } 0 "User: A, Desktop: B" rfl

end Memory

namespace Llm

/-! ## Role repair: `_fix_roles` is idempotent and normalizes both ends -/

/-- When the input already satisfies the adjacency invariant, the merge
pass copies it verbatim. -/
theorem foldl_mergeStep_no_merge :
    ∀ (l acc : List Msg),
      l.Chain' roleOk →
      (∀ p ∈ acc.head?, ∀ m ∈ l.head?, roleOk p m) →
      l.foldl mergeStep acc = l.reverse ++ acc := by
  intro l
  induction l with
  | nil => intro acc _ _; simp
  | cons m rest ih =>
      intro acc hchain hacc
      have hstep : mergeStep acc m = m :: acc := by
        by_cases hm : m.role = "system"
        · simp [mergeStep, hm]
        · cases acc with
          | nil => simp [mergeStep, hm]
          | cons prev r =>
              have hrel := hacc prev (by simp) m (by simp)
              rcases hrel with hsys | hne
              · exact absurd hsys hm
              · simp [mergeStep, hm, hne]
      rw [List.foldl_cons, hstep,
        ih (m :: acc) hchain.tail
          (by
            intro p hp x hx
            simp only [List.head?_cons, Option.mem_def, Option.some.injEq] at hp
            subst hp
            exact (List.chain'_cons'.mp hchain).1 x hx)]
      simp

theorem mergeMsgs_eq_self {l : List Msg} (h : l.Chain' roleOk) :
    mergeMsgs l = l := by
  unfold mergeMsgs
  rw [foldl_mergeStep_no_merge l [] h (by simp)]
  simp

/-- One merge step preserves the (reversed) adjacency invariant of the
accumulator. -/
theorem chain'_flip_mergeStep (acc : List Msg) (m : Msg)
    (h : acc.Chain' (flip roleOk)) :
    (mergeStep acc m).Chain' (flip roleOk) := by
  by_cases hm : m.role = "system"
  · simp only [mergeStep, if_pos hm]
    refine List.chain'_cons'.mpr ⟨?_, h⟩
    intro y _
    exact Or.inl hm
  · cases acc with
    | nil => simp [mergeStep, hm]
    | cons prev r =>
        by_cases hpr : prev.role = m.role
        · have he : mergeStep (prev :: r) m =
              { role := prev.role, content := prev.content ++ "\n" ++ m.content } :: r := by
            simp [mergeStep, hm, hpr]
          rw [he]
          refine List.chain'_cons'.mpr ⟨?_, (List.chain'_cons'.mp h).2⟩
          intro y hy
          have hrel := (List.chain'_cons'.mp h).1 y hy
          rcases hrel with hsys | hne
          · exact Or.inl hsys
          · exact Or.inr hne
        · have he : mergeStep (prev :: r) m = m :: prev :: r := by
            simp [mergeStep, hm, hpr]
          rw [he]
          refine List.chain'_cons'.mpr ⟨?_, h⟩
          intro y hy
          simp only [List.head?_cons, Option.mem_def, Option.some.injEq] at hy
          subst hy
          exact Or.inr hpr

theorem chain'_mergeMsgs (msgs : List Msg) :
    (mergeMsgs msgs).Chain' roleOk := by
  unfold mergeMsgs
  rw [List.chain'_reverse]
  have : ∀ (l acc : List Msg), acc.Chain' (flip roleOk) →
      (l.foldl mergeStep acc).Chain' (flip roleOk) := by
    intro l
    induction l with
    | nil => intro acc h; exact h
    | cons m rest ih =>
        intro acc h
        exact ih (mergeStep acc m) (chain'_flip_mergeStep acc m h)
  exact this msgs [] (by simp)

/-- The head of `fixFirst l` is the head of `l` or the inserted
placeholder user turn. -/
theorem head?_fixFirst (l : List Msg) :
    ∀ y ∈ (fixFirst l).head?,
      y ∈ l.head? ∨ y = { role := "user", content := "(continuing)" } := by
  cases l with
  | nil => intro y hy; cases hy
  | cons m rest =>
      intro y hy
      unfold fixFirst at hy
      by_cases hm : m.role = "system"
      · rw [if_pos hm] at hy
        simp only [List.head?_cons, Option.mem_def, Option.some.injEq] at hy
        exact Or.inl (by simp [hy])
      · rw [if_neg hm] at hy
        by_cases ha : m.role = "assistant"
        · rw [if_pos ha] at hy
          simp only [List.head?_cons, Option.mem_def, Option.some.injEq] at hy
          exact Or.inr hy.symm
        · rw [if_neg ha] at hy
          simp only [List.head?_cons, Option.mem_def, Option.some.injEq] at hy
          exact Or.inl (by simp [hy])

theorem chain'_fixFirst (l : List Msg) (h : l.Chain' roleOk) :
    (fixFirst l).Chain' roleOk := by
  induction l with
  | nil => simp [fixFirst]
  | cons m rest ih =>
      unfold fixFirst
      by_cases hm : m.role = "system"
      · rw [if_pos hm]
        refine List.chain'_cons'.mpr ⟨?_, ih (List.chain'_cons'.mp h).2⟩
        intro y hy
        rcases head?_fixFirst rest y hy with hmem | hins
        · exact (List.chain'_cons'.mp h).1 y hmem
        · subst hins
          exact Or.inr (by rw [hm]; decide)
      · rw [if_neg hm]
        by_cases ha : m.role = "assistant"
        · rw [if_pos ha]
          refine List.chain'_cons'.mpr ⟨?_, h⟩
          intro y hy
          simp only [List.head?_cons, Option.mem_def, Option.some.injEq] at hy
          subst hy
          exact Or.inr (by rw [ha]; decide)
        · rw [if_neg ha]
          exact h

theorem chain'_fixLast (l : List Msg) (h : l.Chain' roleOk) :
    (fixLast l).Chain' roleOk := by
  unfold fixLast
  cases hgl : l.getLast? with
  | none => exact h
  | some x =>
      show (if x.role = "assistant"
        then l ++ [{ role := "user", content := "Continue." }] else l).Chain' roleOk
      by_cases ha : x.role = "assistant"
      · rw [if_pos ha]
        refine List.chain'_append.mpr ⟨h, by simp, ?_⟩
        intro a hga y hy
        rw [hgl] at hga
        simp only [Option.mem_def, Option.some.injEq] at hga
        subst hga
        simp only [List.head?_cons, Option.mem_def, Option.some.injEq] at hy
        subst hy
        exact Or.inr (by rw [ha]; decide)
      · rw [if_neg ha]
        exact h

theorem chain'_ensureNonSystem (l : List Msg) (h : l.Chain' roleOk) :
    (ensureNonSystem l).Chain' roleOk := by
  unfold ensureNonSystem
  by_cases hall : l.all (fun m => m.role = "system") = true
  · rw [if_pos hall]
    refine List.chain'_append.mpr ⟨h, by simp, ?_⟩
    intro a hga y hy
    have ha : a.role = "system" := by
      have := List.all_eq_true.mp hall a (List.mem_of_mem_getLast? hga)
      simpa using this
    simp only [List.head?_cons, Option.mem_def, Option.some.injEq] at hy
    subst hy
    exact Or.inr (by rw [ha]; decide)
  · rw [if_neg hall]
    exact h

theorem firstNonSystem_fixFirst (l : List Msg) :
    ∀ m, firstNonSystem (fixFirst l) = some m → m.role ≠ "assistant" := by
  induction l with
  | nil => intro m h; simp [fixFirst, firstNonSystem] at h
  | cons x rest ih =>
      intro m h
      unfold fixFirst at h
      by_cases hx : x.role = "system"
      · rw [if_pos hx] at h
        rw [firstNonSystem, List.find?_cons_of_neg _ (by simp [hx])] at h
        exact ih m h
      · rw [if_neg hx] at h
        by_cases ha : x.role = "assistant"
        · rw [if_pos ha] at h
          rw [firstNonSystem, List.find?_cons_of_pos _ (by decide)] at h
          simp only [Option.some.injEq] at h
          subst h
          decide
        · rw [if_neg ha] at h
          rw [firstNonSystem, List.find?_cons_of_pos _ (by simpa using hx)] at h
          simp only [Option.some.injEq] at h
          subst h
          exact ha

theorem firstNonSystem_append (l : List Msg) (u : Msg)
    (hl : ∀ m, firstNonSystem l = some m → m.role ≠ "assistant")
    (hu : u.role ≠ "assistant") :
    ∀ m, firstNonSystem (l ++ [u]) = some m → m.role ≠ "assistant" := by
  intro m h
  rw [firstNonSystem, List.find?_append] at h
  cases hfl : List.find? (fun m => m.role != "system") l with
  | some y =>
      rw [hfl] at h
      simp only [Option.or_some, Option.some.injEq] at h
      subst h
      exact hl y hfl
  | none =>
      rw [hfl] at h
      simp only [Option.none_or] at h
      by_cases hpu : (u.role != "system") = true
      · rw [@List.find?_cons_of_pos _ (fun m => m.role != "system") u [] hpu] at h
        simp only [Option.some.injEq] at h
        subst h
        exact hu
      · rw [@List.find?_cons_of_neg _ (fun m => m.role != "system") u [] hpu] at h
        simp at h

theorem firstNonSystem_fixLast (l : List Msg)
    (hl : ∀ m, firstNonSystem l = some m → m.role ≠ "assistant") :
    ∀ m, firstNonSystem (fixLast l) = some m → m.role ≠ "assistant" := by
  unfold fixLast
  cases l.getLast? with
  | none => exact hl
  | some x =>
      show ∀ m, firstNonSystem (if x.role = "assistant"
        then l ++ [{ role := "user", content := "Continue." }] else l) = some m →
          m.role ≠ "assistant"
      by_cases ha : x.role = "assistant"
      · rw [if_pos ha]
        exact firstNonSystem_append l _ hl (by decide)
      · rw [if_neg ha]
        exact hl

theorem firstNonSystem_ensureNonSystem (l : List Msg)
    (hl : ∀ m, firstNonSystem l = some m → m.role ≠ "assistant") :
    ∀ m, firstNonSystem (ensureNonSystem l) = some m → m.role ≠ "assistant" := by
  unfold ensureNonSystem
  by_cases hall : l.all (fun m => m.role = "system") = true
  · rw [if_pos hall]
    exact firstNonSystem_append l _ hl (by decide)
  · rw [if_neg hall]
    exact hl

theorem getLast?_fixLast (l : List Msg) :
    ∀ m, (fixLast l).getLast? = some m → m.role ≠ "assistant" := by
  unfold fixLast
  cases hgl : l.getLast? with
  | none =>
      intro m h
      rw [hgl] at h
      cases h
  | some x =>
      show ∀ m, (if x.role = "assistant"
        then l ++ [{ role := "user", content := "Continue." }]
        else l).getLast? = some m → m.role ≠ "assistant"
      by_cases ha : x.role = "assistant"
      · rw [if_pos ha]
        intro m h
        rw [List.getLast?_concat] at h
        simp only [Option.some.injEq] at h
        subst h
        decide
      · rw [if_neg ha]
        intro m h
        rw [hgl] at h
        simp only [Option.some.injEq] at h
        subst h
        exact ha

theorem getLast?_ensureNonSystem (l : List Msg)
    (hl : ∀ m, l.getLast? = some m → m.role ≠ "assistant") :
    ∀ m, (ensureNonSystem l).getLast? = some m → m.role ≠ "assistant" := by
  intro m h
  unfold ensureNonSystem at h
  by_cases hall : l.all (fun m => m.role = "system") = true
  · rw [if_pos hall, List.getLast?_concat] at h
    simp only [Option.some.injEq] at h
    subst h
    decide
  · rw [if_neg hall] at h
    exact hl m h

theorem fixFirst_eq_self (l : List Msg)
    (h : ∀ m, firstNonSystem l = some m → m.role ≠ "assistant") :
    fixFirst l = l := by
  induction l with
  | nil => rfl
  | cons x rest ih =>
      unfold fixFirst
      by_cases hx : x.role = "system"
      · rw [if_pos hx]
        have hrest : fixFirst rest = rest := by
          apply ih
          intro m hm
          apply h
          rw [firstNonSystem, List.find?_cons_of_neg _ (by simp [hx])]
          exact hm
        rw [hrest]
      · by_cases ha : x.role = "assistant"
        · exfalso
          have hfx : firstNonSystem (x :: rest) = some x := by
            rw [firstNonSystem, List.find?_cons_of_pos _ (by simpa using hx)]
          exact h x hfx ha
        · rw [if_neg hx, if_neg ha]

theorem fixLast_eq_self (l : List Msg)
    (h : ∀ m, l.getLast? = some m → m.role ≠ "assistant") :
    fixLast l = l := by
  unfold fixLast
  cases hgl : l.getLast? with
  | none => rfl
  | some x =>
      show (if x.role = "assistant"
        then l ++ [{ role := "user", content := "Continue." }] else l) = l
      rw [if_neg (h x hgl)]

theorem ensureNonSystem_eq_self (l : List Msg)
    (h : ¬ l.all (fun m => m.role = "system") = true) :
    ensureNonSystem l = l := by
  unfold ensureNonSystem
  rw [if_neg h]

theorem ensureNonSystem_not_all (l : List Msg) :
    ¬ (ensureNonSystem l).all (fun m => m.role = "system") = true := by
  unfold ensureNonSystem
  by_cases hall : l.all (fun m => m.role = "system") = true
  · rw [if_pos hall]
    intro hcon
    have := List.all_eq_true.mp hcon { role := "user", content := "Hello." }
      (by simp)
    simp at this
  · rw [if_neg hall]
    exact hall

/-- C4: `LLM._fix_roles` is idempotent — applying it twice gives the
same message sequence as applying it once — and its output both begins
with non-assistant content (the first non-system message is never an
assistant message) and ends with non-assistant content. -/
theorem fix_roles_idem :
    ∀ msgs : List Msg,
      fix_roles (fix_roles msgs) = fix_roles msgs ∧
      (firstNonSystem (fix_roles msgs)).all (fun m => m.role != "assistant")
        = true ∧
      ((fix_roles msgs).getLast?).all (fun m => m.role != "assistant")
        = true := by
  intro msgs
  have hfirst : ∀ m, firstNonSystem (fix_roles msgs) = some m →
      m.role ≠ "assistant" := by
    unfold fix_roles
    exact firstNonSystem_ensureNonSystem _
      (firstNonSystem_fixLast _ (firstNonSystem_fixFirst _))
  have hlast : ∀ m, (fix_roles msgs).getLast? = some m →
      m.role ≠ "assistant" := by
    unfold fix_roles
    exact getLast?_ensureNonSystem _ (getLast?_fixLast _)
  have hchain : (fix_roles msgs).Chain' roleOk := by
    unfold fix_roles
    exact chain'_ensureNonSystem _
      (chain'_fixLast _ (chain'_fixFirst _ (chain'_mergeMsgs msgs)))
  have hnotall : ¬ (fix_roles msgs).all (fun m => m.role = "system") = true := by
    unfold fix_roles
    exact ensureNonSystem_not_all _
  refine ⟨?_, ?_, ?_⟩
  · show ensureNonSystem (fixLast (fixFirst (mergeMsgs (fix_roles msgs))))
      = fix_roles msgs
    rw [mergeMsgs_eq_self hchain, fixFirst_eq_self _ hfirst,
      fixLast_eq_self _ hlast, ensureNonSystem_eq_self _ hnotall]
  · cases hf : firstNonSystem (fix_roles msgs) with
    | none => rfl
    | some m => exact bne_iff_ne.mpr (hfirst m hf)
  · cases hg : (fix_roles msgs).getLast? with
    | none => rfl
    | some m => exact bne_iff_ne.mpr (hlast m hg)

end Llm

namespace Worker

/-! ## Worker tool scoping -/

/-- C7: a parsed tool call whose name is outside the worker's allowed
subset produces the refusal observation — which names every allowed
tool — and the tool execution function is never invoked; a name inside
the subset is executed (the observation is `execute_tool`'s result). -/
theorem scope_check :
    ∀ (role action r : String),
      (action ∉ allowed role →
        dispatch role action r = (refusalObs role action, false) ∧
        ∀ t ∈ allowed role, t.data <:+: (refusalObs role action).data) ∧
      (action ∈ allowed role → dispatch role action r = (r, true)) := by
  intro role action r
  constructor
  · intro hout
    refine ⟨by simp [dispatch, hout], ?_⟩
    intro t ht
    have hj := mem_data_joinSep ", " t (allowed role) ht
    refine hj.trans ?_
    unfold refusalObs
    simp only [String.data_append]
    exact ⟨("Tool \x27" ++ action ++ "\x27 not available for " ++ role ++
      ". Use: ").data, [], by simp [String.data_append]⟩
  · intro hin
    simp [dispatch, hin]

/-- Witness for `scope_check`: the `coder` worker refuses `web_search`
(not in its subset) and runs `read_file` (in its subset). -/
theorem scope_check_witness :
    dispatch "coder" "web_search" "obs" = (refusalObs "coder" "web_search", false) ∧
    dispatch "coder" "read_file" "obs" = ("obs", true) :=
  ⟨((scope_check "coder" "web_search" "obs").1 (by decide)).1,
   (scope_check "coder" "read_file" "obs").2 (by decide)⟩

end Worker

/-! ## Output-protocol parsing precedence (C5) -/

/-- C5 (amended): the two parsers disagree on precedence.  In
`Coordinator._parse` the final-answer check runs first: any text whose
cleaned form contains the `Final Answer` marker parses as a
`FinalAnswer` intent carrying the trailing text, never as an action or
delegation.  In the single-tier `Agent.send`, however, the tool check
runs before the answer check, so a response recognized as a tool call
is executed as a tool round even when a final-answer marker with
trailing text is present in the same text. -/
theorem parse_final_precedence :
    (∀ (text : String) (rest : List Char),
      findKwRest "Final Answer".data true (cleanMarkup text) = some rest →
      Coord.parse text = .final (pyStrip (String.mk rest))) ∧
    (∀ (text name : String),
      Agent.parse_tool text = some name →
      Agent.classify text = .tool name) := by
  constructor
  · intro text rest h
    unfold Coord.parse
    simp only [h]
  · intro text name h
    unfold Agent.classify
    rw [h]

/-- Witness for `parse_final_precedence`: both parts at concrete
texts. -/
theorem parse_final_precedence_witness :
    Coord.parse "Final Answer: ok" = .final "ok" ∧
    Agent.classify "TOOL: read_file" = .tool "read_file" := by
  constructor
  · exact parse_final_precedence.1 "Final Answer: ok" "ok".data rfl
  · exact parse_final_precedence.2 "TOOL: read_file" "read_file" rfl

namespace Agent

/-! ## The single-tier round loop (C6) -/

/-- Rounds after the first never issue a corrective re-prompt. -/
theorem sendAux_no_reprompt (resp : Nat → String) :
    ∀ (fuel n : Nat), 1 ≤ n → (sendAux resp n fuel).1 = 0 := by
  intro fuel
  induction fuel with
  | zero => intro n _; rfl
  | succ k ih =>
      intro n hn
      cases hc : classify (resp n) with
      | tool t =>
          simp only [sendAux, hc]
          exact ih (n + 1) (by omega)
      | answer a => simp [sendAux, hc]
      | unparsed => simp [sendAux, hc, show n ≠ 0 by omega]

/-- One unfolding step of the round loop. -/
theorem sendAux_step (resp : Nat → String) (n fuel : Nat) :
    sendAux resp n (fuel + 1) =
      match classify (resp n) with
      | .tool _ => sendAux resp (n + 1) fuel
      | .answer a => (0, some a)
      | .unparsed =>
          if n = 0 then
            ((sendAux resp (n + 1) fuel).1 + 1, (sendAux resp (n + 1) fuel).2)
          else (0, some (resp n)) := by
  cases hc : classify (resp n) <;> simp [sendAux, hc]

/-- Rounds classified as tool calls just advance the loop. -/
theorem sendAux_skip_tools (resp : Nat → String) :
    ∀ (j n fuel : Nat),
      (∀ k, n ≤ k → k < n + j → ∃ t, classify (resp k) = .tool t) →
      sendAux resp n (j + fuel) = sendAux resp (n + j) fuel := by
  intro j
  induction j with
  | zero => intro n fuel _; simp
  | succ i ih =>
      intro n fuel hk
      obtain ⟨t, ht⟩ := hk n (le_refl n) (by omega)
      have h1 : i + 1 + fuel = (i + fuel) + 1 := by omega
      rw [h1]
      simp only [sendAux, ht]
      rw [ih (n + 1) fuel (fun k hk1 hk2 => hk k (by omega) (by omega))]
      congr 1
      omega

/-- C6 (amended): the loop issues at most one corrective re-prompt
ever, and only when the unparseable response is the first-round
response; in that case the next unparseable response is returned
verbatim (with the single re-prompt counted).  An unparseable response
first reached at any later round — e.g. after tool rounds — is
returned verbatim immediately, with no re-prompt at all. -/
theorem send_reprompt_once :
    ∀ resp : Nat → String,
      (send resp).1 ≤ 1 ∧
      (classify (resp 0) = .unparsed → classify (resp 1) = .unparsed →
        send resp = (1, some (resp 1))) ∧
      (∀ n, 1 ≤ n → n ≤ 7 →
        (∀ k, k < n → ∃ t, classify (resp k) = .tool t) →
        classify (resp n) = .unparsed →
        send resp = (0, some (resp n))) := by
  intro resp
  have h87 : sendAux resp 0 8 = sendAux resp 0 (7 + 1) := rfl
  refine ⟨?_, ?_, ?_⟩
  · unfold send
    rw [h87, sendAux_step]
    cases hc : classify (resp 0) with
    | tool t =>
        show (sendAux resp (0 + 1) 7).1 ≤ 1
        rw [sendAux_no_reprompt resp 7 (0 + 1) (by omega)]
        omega
    | answer a =>
        show (0 : Nat) ≤ 1
        omega
    | unparsed =>
        show (sendAux resp (0 + 1) 7).1 + 1 ≤ 1
        rw [sendAux_no_reprompt resp 7 (0 + 1) (by omega)]
  · intro h0 h1
    unfold send
    rw [h87, sendAux_step, h0]
    show ((sendAux resp (0 + 1) 7).1 + 1, (sendAux resp (0 + 1) 7).2)
      = (1, some (resp 1))
    have h76 : sendAux resp (0 + 1) 7 = sendAux resp 1 (6 + 1) := rfl
    rw [h76, sendAux_step, h1]
    rfl
  · intro n h1n h7 htools hun
    unfold send
    have h8 : (8 : Nat) = n + (8 - n) := by omega
    rw [h8, sendAux_skip_tools resp n 0 (8 - n)
      (fun k hk1 hk2 => htools k (by omega))]
    obtain ⟨m, hm⟩ : ∃ m, 8 - n = m + 1 := ⟨7 - n, by omega⟩
    rw [hm, sendAux_step]
    have h0n : classify (resp (0 + n)) = .unparsed := by
      simpa using hun
    rw [h0n]
    show (if 0 + n = 0 then
      ((sendAux resp (0 + n + 1) m).1 + 1, (sendAux resp (0 + n + 1) m).2)
      else (0, some (resp (0 + n)))) = (0, some (resp n))
    rw [if_neg (by omega)]
    simp

/-- Witness for `send_reprompt_once`: with every model reply
unparseable, exactly one corrective re-prompt is issued and the second
raw reply is returned verbatim. -/
theorem send_reprompt_once_witness :
    send (fun _ => "hello there") = (1, some "hello there") :=
  (send_reprompt_once (fun _ => "hello there")).2.1 rfl rfl

/-- C6 counterexample: when round 0 is a tool call and round 1 is
unparseable, the loop returns the raw round-1 text immediately with
zero corrective re-prompts — the corrective re-prompt is issued only
for a round-0 unparseable response, not "whenever a model response is
unparseable". -/
theorem send_no_reprompt_cex :
    classify ((fun n => if n = 0 then "TOOL: wait" else "I cannot do that") 1)
      = .unparsed ∧
    send (fun n => if n = 0 then "TOOL: wait" else "I cannot do that")
      = (0, some "I cannot do that") := by
  refine ⟨rfl, rfl⟩

end Agent

namespace Tools

/-! ## The dispatch boundary (C1) -/

/-- C1 counterexample: `python_exec` on code that raises `SystemExit`
(what `sys.exit()` raises; a `BaseException` that `except Exception`
does not catch) propagates the exception out of `execute` instead of
returning an observation pair — and would terminate the host process. -/
theorem execute_sysexit_cex :
    execute sysExitEnv "python_exec" [("code", "raise SystemExit")] =
      .error { clsName := "SystemExit", msg := "", isException := false } := rfl

/-- C1 (amended): `execute` always returns an `(observation, payload)`
pair unless the raised exception is outside the `Exception` class
(`SystemExit`, `KeyboardInterrupt`), which propagates; whenever the
tool body raises an `Exception`-class error the observation starts with
the `✗` marker and names the exception, and an unknown tool name
produces a `✗ Unknown tool` observation; `execute_any` likewise. -/
theorem execute_failure_marker :
    ∀ (env : Env) (name : String) (args : Args),
      (∀ e, executeBody env name args = .error e → e.isException = true →
        execute env name args = .ok ("✗ " ++ e.clsName ++ ": " ++ e.msg, none)) ∧
      (∀ e, execute env name args = .error e →
        executeBody env name args = .error e ∧ e.isException = false) ∧
      (∀ r, executeBody env name args = .ok r → execute env name args = .ok r) ∧
      (name ∉ BUILTIN_NAMES →
        execute env name args =
          .ok ("✗ Unknown tool: " ++ name ++ ". Available: " ++
            joinSep ", " BUILTIN_NAMES, none)) ∧
      (∀ e, execute_any env name args = .error e → e.isException = false) ∧
      (name ∉ BUILTIN_NAMES → ¬ env.customExists name = true →
        execute_any env name args = .ok ("✗ Unknown tool: " ++ name, none)) := by
  intro env name args
  have hA : ∀ e, executeBody env name args = .error e → e.isException = true →
      execute env name args = .ok ("✗ " ++ e.clsName ++ ": " ++ e.msg, none) := by
    intro e he hx
    simp only [execute, he]
    rw [if_pos hx]
  have hB : ∀ e, execute env name args = .error e →
      executeBody env name args = .error e ∧ e.isException = false := by
    intro e he
    unfold execute at he
    cases hb : executeBody env name args with
    | ok r => rw [hb] at he; cases he
    | error e2 =>
        simp only [hb] at he
        by_cases hx : e2.isException = true
        · rw [if_pos hx] at he; cases he
        · rw [if_neg hx] at he
          simp only [Except.error.injEq] at he
          subst he
          exact ⟨rfl, by simpa using hx⟩
  have hC : ∀ r, executeBody env name args = .ok r →
      execute env name args = .ok r := by
    intro r hr
    simp only [execute, hr]
  have hD : name ∉ BUILTIN_NAMES →
      execute env name args =
        .ok ("✗ Unknown tool: " ++ name ++ ". Available: " ++
          joinSep ", " BUILTIN_NAMES, none) := by
    intro hn
    simp only [BUILTIN_NAMES, List.mem_cons, List.mem_singleton, not_or] at hn
    obtain ⟨h1, h2, h3, h4, h5, h6, h7, h8, h9, h10, h11, h12, h13, h14, h15,
      h16, h17, h18, h19, h20, h21, -⟩ := hn
    have hbody : executeBody env name args =
        .ok ("✗ Unknown tool: " ++ name ++ ". Available: " ++
          joinSep ", " BUILTIN_NAMES, none) := by
      unfold executeBody
      rw [if_neg h1, if_neg h2, if_neg h3, if_neg h4, if_neg h5, if_neg h6,
        if_neg h7, if_neg h8, if_neg h9, if_neg h10, if_neg h11, if_neg h12,
        if_neg h13, if_neg h14, if_neg h15, if_neg h16, if_neg h17,
        if_neg h18, if_neg h19, if_neg h20, if_neg h21]
    exact hC _ hbody
  refine ⟨hA, hB, hC, hD, ?_, ?_⟩
  · intro e he
    unfold execute_any at he
    by_cases hb : name ∈ BUILTIN_NAMES
    · rw [if_pos hb] at he
      exact (hB e he).2
    · rw [if_neg hb] at he
      by_cases hc : env.customExists name = true
      · rw [if_pos hc] at he
        cases hcc : customCall env name args with
        | ok o =>
            rw [hcc] at he
            cases o with
            | none => cases he
            | some v => cases he
        | error e2 =>
            simp only [hcc] at he
            by_cases hx : e2.isException = true
            · rw [if_pos hx] at he; cases he
            · rw [if_neg hx] at he
              simp only [Except.error.injEq] at he
              subst he
              simpa using hx
      · rw [if_neg hc] at he
        cases he
  · intro hn hc
    unfold execute_any
    rw [if_neg hn, if_neg hc]

/-- Witness for `execute_failure_marker`: an `Exception`-class failure
inside `python_exec` is converted to a `✗`-prefixed observation, and an
unknown name yields the `✗ Unknown tool` observation, under both
dispatchers. -/
theorem execute_failure_marker_witness :
    execute { defaultEnv with
        execPython := fun _ =>
          .error { clsName := "ZeroDivisionError", msg := "division by zero",
                   isException := true } }
      "python_exec" [("code", "x = 1/0")] =
      .ok ("✗ ZeroDivisionError: division by zero", none) ∧
    execute defaultEnv "frobnicate" [] =
      .ok ("✗ Unknown tool: frobnicate. Available: " ++
        joinSep ", " BUILTIN_NAMES, none) ∧
    execute_any defaultEnv "frobnicate" [] =
      .ok ("✗ Unknown tool: frobnicate", none) := by
  refine ⟨?_, ?_, ?_⟩
  · exact (execute_failure_marker _ "python_exec" [("code", "x = 1/0")]).1
      { clsName := "ZeroDivisionError", msg := "division by zero",
        isException := true } rfl rfl
  · exact (execute_failure_marker defaultEnv "frobnicate" []).2.2.2.1
      (by decide)
  · exact (execute_failure_marker defaultEnv "frobnicate" []).2.2.2.2.2
      (by decide) (by decide)

end Tools

/-- C5 counterexample: a model output containing both a tool marker
(`TOOL: wait`, a registry name) and a final-answer marker with trailing
text (`ANSWER: done`) is turned into a tool round by the single-tier
agent's output handling, not a `FinalAnswer` — the tool check runs
first in `Agent.send`. -/
theorem agent_tool_over_answer_cex :
    Agent.parse_answer "TOOL: wait\nANSWER: done" = some "done" ∧
    Agent.parse_tool "TOOL: wait\nANSWER: done" = some "wait" ∧
    Agent.classify "TOOL: wait\nANSWER: done" = .tool "wait" := by
  refine ⟨rfl, rfl, rfl⟩

end Parv
